import Mathlib

/-!
Verification of github-router's protocol translation engine.

The definitions below embed, in Lean, the pure translation core of the
repository: the stop-reason mapper and model-name normalizer
(`src/routes/messages/utils.ts`), the model resolver (`src/lib/utils.ts`),
and the request/response/stream translators of the messages route.  The
translator implementations (`non-stream-translation.ts`,
`stream-translation.ts`) are not part of the source tree here, only their
tests and callers are; those definitions are modelled from the
specification and are marked as such in their doc comments.
-/

set_option linter.unusedVariables false

/-! ## Basic string helpers mirroring the JavaScript string operations -/

/-- The double-quote character, written by code point to keep JSON text readable. -/
def quoteChar : Char := Char.ofNat 34

/-- The backslash character. -/
def bsChar : Char := Char.ofNat 92

/-- Opening curly brace. -/
def lbraceChar : Char := Char.ofNat 123

/-- Closing curly brace. -/
def rbraceChar : Char := Char.ofNat 125

/-- Opening square bracket. -/
def lbrackChar : Char := Char.ofNat 91

/-- Closing square bracket. -/
def rbrackChar : Char := Char.ofNat 93

/-- Colon. -/
def colonChar : Char := Char.ofNat 58

/-- Comma. -/
def commaChar : Char := Char.ofNat 44

/-- ASCII lowering of a single character, as JavaScript `toLowerCase` acts on
the ASCII range (the only range relevant to the `"opus"` substring checks). -/
def asciiToLower (c : Char) : Char :=
  if 'A' ≤ c ∧ c ≤ 'Z' then Char.ofNat (c.toNat + 32) else c

/-- Model of JavaScript `String.prototype.toLowerCase` on ASCII strings. -/
def jsToLowerCase (s : String) : String := String.mk (s.data.map asciiToLower)

/-- Prefix test, computed on the underlying character lists. -/
def strIsPrefixOf (p s : String) : Bool := p.data.isPrefixOf s.data

/-- Suffix test, computed on the underlying character lists. -/
def strEndsWith (s suf : String) : Bool := suf.data.reverse.isPrefixOf s.data.reverse

/-- Removing the last `n` characters, computed on the underlying lists. -/
def strDropRight (s : String) (n : Nat) : String :=
  String.mk (s.data.take (s.data.length - n))

/-- Substring test on character lists: does `pat` occur contiguously in `s`?
Models JavaScript `String.prototype.includes`. -/
def listContainsSub (s pat : List Char) : Bool :=
  if pat.isPrefixOf s then true
  else
    match s with
    | [] => false
    | _ :: rest => listContainsSub rest pat

/-- Model of JavaScript `s.includes(pat)`. -/
def strIncludes (s pat : String) : Bool := listContainsSub s.data pat.data

/-! ## Stop Reason Mapper

Source: `mapOpenAIStopReasonToAnthropic` in `src/routes/messages/utils.ts`. -/

/-- The Anthropic terminal-reason vocabulary. -/
inductive AnthropicStopReason where
  | end_turn
  | max_tokens
  | tool_use
  | stop_sequence
deriving DecidableEq, Repr

/-- Result of the stop-reason lookup.  The source returns `null` for a `null`
finish reason and performs a JavaScript property access on an object literal
otherwise.  A key that is neither an own key of the literal nor the name of an
`Object.prototype` member yields `undefined`; a key naming an
`Object.prototype` member yields that inherited member (a function, or the
prototype object itself for `__proto__`), modelled abstractly as
`inherited key`. -/
inductive StopMapResult where
  | nullReason
  | undefinedReason
  | inherited (key : String)
  | mapped (r : AnthropicStopReason)
deriving DecidableEq, Repr

/-- The property names of `Object.prototype`: a property access with one of
these keys on a plain object literal that does not shadow them returns the
inherited member rather than `undefined`. -/
def objectPrototypeKeys : List String :=
  ["constructor", "hasOwnProperty", "isPrototypeOf", "propertyIsEnumerable",
   "toLocaleString", "toString", "valueOf", "__proto__",
   "__defineGetter__", "__defineSetter__", "__lookupGetter__", "__lookupSetter__"]

/-- Embedding of `mapOpenAIStopReasonToAnthropic`: `null` maps to `null`,
otherwise the finish reason is looked up on the fixed object literal
`stop ↦ end_turn, length ↦ max_tokens, tool_calls ↦ tool_use,
content_filter ↦ end_turn`.  The lookup is an ordinary JavaScript property
access, so keys naming `Object.prototype` members return the inherited
member and all other unknown keys return `undefined`. -/
def mapOpenAIStopReasonToAnthropic (finishReason : Option String) : StopMapResult :=
  match finishReason with
  | none => .nullReason
  | some s =>
    if s = "stop" then .mapped .end_turn
    else if s = "length" then .mapped .max_tokens
    else if s = "tool_calls" then .mapped .tool_use
    else if s = "content_filter" then .mapped .end_turn
    else if s ∈ objectPrototypeKeys then .inherited s
    else .undefinedReason

/-! ## Model Identifier Resolver (`resolveModel`, `src/lib/utils.ts`) -/

/-- A catalog entry; only the `id` field of the Copilot model record is
consulted by `resolveModel`. -/
structure ModelEntry where
  id : String
deriving DecidableEq, Repr

/-- Embedding of `resolveModel`: exact catalog members (and all inputs when no
catalog is loaded) pass through; otherwise an input whose lowercase form
contains `"opus"` is remapped to the first catalog id that contains `"opus"`
and ends with `"-1m"`, when one exists. -/
def resolveModel (models : Option (List ModelEntry)) (modelId : String) : String :=
  match models with
  | none => modelId
  | some l =>
    if l.any (fun m => m.id == modelId) then modelId
    else if strIncludes (jsToLowerCase modelId) "opus" then
      match l.find? (fun m => strIncludes m.id "opus" && strEndsWith m.id "-1m") with
      | some m => m.id
      | none => modelId
    else modelId

/-! ## Model name normalization (`normalizeCopilotModelName`,
`src/routes/messages/utils.ts`) -/

/-- The family prefixes recognized by the dash-to-dot regex: `claude-` followed
by `opus`, `sonnet` or `haiku` and a dash. -/
def claudeDotFamilies : List String := ["claude-opus-", "claude-sonnet-", "claude-haiku-"]

/-- One attempt of the dash-to-dot regex for a fixed family prefix: the model
must start with the prefix followed by a digit run, a dash and a second digit
run; the first dash between the runs becomes a dot.  Mirrors the regex
replacement semantics (both digit runs are maximal). -/
def tryDotConvert (fam : String) (model : String) : Option String :=
  if fam.data.isPrefixOf model.data then
    let rest := model.data.drop fam.data.length
    let d1 := rest.takeWhile Char.isDigit
    let r1 := rest.dropWhile Char.isDigit
    if d1 = [] then none
    else
      match r1 with
      | c :: r2 =>
        if c = '-' then
          let d2 := r2.takeWhile Char.isDigit
          let r3 := r2.dropWhile Char.isDigit
          if d2 = [] then none
          else some (fam ++ String.mk d1 ++ "." ++ String.mk d2 ++ String.mk r3)
        else none
      | [] => none
  else none

/-- Embedding of step 2 of `normalizeCopilotModelName`: the anchored regex
replacement turning the first dash-separated version pair after a recognized
family prefix into dot notation.  The three family alternatives are mutually
exclusive prefixes, so at most one of the `tryDotConvert` attempts succeeds. -/
def dotConvert (model : String) : String :=
  match claudeDotFamilies.findSome? (fun fam => tryDotConvert fam model) with
  | some r => r
  | none => model

/-- Embedding of step 3: the date-suffix regex (a dash followed by exactly
eight digits, anchored at the end) matches exactly when the string ends in a
dash followed by exactly eight digits, and the replacement removes that
suffix. -/
def stripDateSuffix (s : String) : String :=
  let r := s.data.reverse
  if (r.take 8).length = 8 && (r.take 8).all Char.isDigit && ((r.drop 8).head? == some '-') then
    String.mk ((r.drop 9).reverse)
  else s

/-- Embedding of step 4: stripping a trailing `-1m` or `-fast` variant
suffix. -/
def stripVariantSuffix (s : String) : String :=
  if strEndsWith s "-1m" then strDropRight s 3
  else if strEndsWith s "-fast" then strDropRight s 5
  else s

/-- Embedding of step 5,
`modelIds.filter(id => w.startsWith(id)).sort((a, b) => b.length - a.length)[0]`:
the longest catalog id that is a prefix of `w`; on equal lengths the earlier
catalog entry wins because the JavaScript sort is stable. -/
def longestPrefixCandidate (ids : List String) (w : String) : Option String :=
  match ids with
  | [] => none
  | id :: rest =>
    match longestPrefixCandidate rest w with
    | none => if strIsPrefixOf id w then some id else none
    | some b =>
      if strIsPrefixOf id w then
        if b.length > id.length then some b else some id
      else some b

/-- Embedding of `normalizeCopilotModelName`.  The global
`state.models?.data.map(m => m.id) ?? []` snapshot is passed explicitly as
`modelIds`. -/
def normalizeCopilotModelName (modelIds : List String) (model : String) : String :=
  if model ∈ modelIds then model
  else
    let dotConverted := dotConvert model
    if dotConverted ≠ model ∧ dotConverted ∈ modelIds then dotConverted
    else
      let withoutDate := stripDateSuffix dotConverted
      if withoutDate ≠ dotConverted ∧ withoutDate ∈ modelIds then withoutDate
      else
        let withoutVariant := stripVariantSuffix withoutDate
        if withoutVariant ≠ withoutDate ∧ withoutVariant ∈ modelIds then withoutVariant
        else
          match longestPrefixCandidate modelIds withoutVariant with
          | some c => c
          | none =>
            if strIsPrefixOf "claude" model then "claude-opus-4.6" else model

/-- The mock catalog used by the repository's tests, for concrete evaluation. -/
def mockCopilotModels : List String :=
  ["claude-opus-4.6-1m", "claude-opus-4.6-fast", "claude-opus-4.6",
   "claude-sonnet-4", "claude-sonnet-4.5", "claude-opus-4.5", "claude-opus-41",
   "claude-haiku-4.5", "gpt-4o", "gpt-4o-mini", "gpt5.2-codex"]

example : normalizeCopilotModelName mockCopilotModels "claude-opus-4.6-1m" = "claude-opus-4.6-1m" := by decide
example : normalizeCopilotModelName mockCopilotModels "claude-opus-4-6" = "claude-opus-4.6" := by decide
example : normalizeCopilotModelName mockCopilotModels "claude-sonnet-4-20250514" = "claude-sonnet-4" := by decide
example : normalizeCopilotModelName mockCopilotModels "claude-sonnet-4-5-20250929" = "claude-sonnet-4.5" := by decide
example : normalizeCopilotModelName mockCopilotModels "claude-sonnet-4-5-1m" = "claude-sonnet-4.5" := by decide
example : normalizeCopilotModelName mockCopilotModels "claude-haiku-4-5-20251001" = "claude-haiku-4.5" := by decide
example : normalizeCopilotModelName mockCopilotModels "claude-unknown-99" = "claude-opus-4.6" := by decide
example : normalizeCopilotModelName mockCopilotModels "llama-3-70b" = "llama-3-70b" := by decide
example : normalizeCopilotModelName mockCopilotModels "gpt-4o" = "gpt-4o" := by decide
example : normalizeCopilotModelName [] "claude-opus-4-6" = "claude-opus-4.6" := by decide
example : normalizeCopilotModelName [] "gpt-4o" = "gpt-4o" := by decide
example : normalizeCopilotModelName mockCopilotModels "claude-opus-4-5-20250918" = "claude-opus-4.5" := by decide

/-! ## Characterization of the prefix-match tier -/

/-- `c` is a prefix of `w`, occurs in `ids`, every earlier prefix candidate is
strictly shorter, and no prefix candidate anywhere is longer: exactly the
element selected by the stable descending-by-length sort of the prefix
candidates. -/
def IsLongestFirstMatch (ids : List String) (w c : String) : Prop :=
  strIsPrefixOf c w = true ∧
  (∃ pre post, ids = pre ++ c :: post ∧
    ∀ x ∈ pre, strIsPrefixOf x w = true → x.length < c.length) ∧
  (∀ x ∈ ids, strIsPrefixOf x w = true → x.length ≤ c.length)

theorem longestPrefixCandidate_none_spec (ids : List String) (w : String) :
    longestPrefixCandidate ids w = none → ∀ x ∈ ids, strIsPrefixOf x w = false := by
  induction ids with
  | nil => intro _ x hx; simp at hx
  | cons id rest ih =>
    intro h x hx
    simp only [longestPrefixCandidate] at h
    cases h1 : longestPrefixCandidate rest w with
    | none =>
      simp only [h1] at h
      cases hp : strIsPrefixOf id w with
      | false =>
        rcases List.mem_cons.mp hx with rfl | hx'
        · exact hp
        · exact ih h1 x hx'
      | true => simp [hp] at h
    | some b =>
      simp only [h1] at h
      by_cases hp : strIsPrefixOf id w = true
      · rw [if_pos hp] at h; split at h <;> simp at h
      · rw [if_neg hp] at h; simp at h

theorem longestPrefixCandidate_first (ids : List String) (w : String) :
    ∀ c, longestPrefixCandidate ids w = some c → IsLongestFirstMatch ids w c := by
  induction ids with
  | nil => intro c h; simp [longestPrefixCandidate] at h
  | cons id rest ih =>
    intro c h
    simp only [longestPrefixCandidate] at h
    cases h1 : longestPrefixCandidate rest w with
    | none =>
      simp only [h1] at h
      cases hp : strIsPrefixOf id w with
      | false => simp [hp] at h
      | true =>
        simp only [hp, if_true] at h
        injection h with h; subst h
        have hnone := longestPrefixCandidate_none_spec rest w h1
        refine ⟨hp, ⟨[], rest, rfl, by simp⟩, ?_⟩
        intro x hx hxp
        rcases List.mem_cons.mp hx with rfl | hx'
        · exact le_rfl
        · rw [hnone x hx'] at hxp; cases hxp
    | some b =>
      simp only [h1] at h
      obtain ⟨hbp, ⟨pre, post, heq, hpre⟩, hbound⟩ := ih b h1
      cases hp : strIsPrefixOf id w with
      | false =>
        simp only [hp, Bool.false_eq_true, if_false] at h
        injection h with h; subst h
        refine ⟨hbp, ⟨id :: pre, post, by simp [heq], ?_⟩, ?_⟩
        · intro x hx hxp
          rcases List.mem_cons.mp hx with rfl | hx'
          · rw [hp] at hxp; cases hxp
          · exact hpre x hx' hxp
        · intro x hx hxp
          rcases List.mem_cons.mp hx with rfl | hx'
          · rw [hp] at hxp; cases hxp
          · exact hbound x hx' hxp
      | true =>
        simp only [hp, if_true] at h
        by_cases hgt : b.length > id.length
        · rw [if_pos hgt] at h
          injection h with h; subst h
          refine ⟨hbp, ⟨id :: pre, post, by simp [heq], ?_⟩, ?_⟩
          · intro x hx hxp
            rcases List.mem_cons.mp hx with rfl | hx'
            · exact hgt
            · exact hpre x hx' hxp
          · intro x hx hxp
            rcases List.mem_cons.mp hx with rfl | hx'
            · exact le_of_lt hgt
            · exact hbound x hx' hxp
        · rw [if_neg hgt] at h
          injection h with h; subst h
          refine ⟨hp, ⟨[], rest, rfl, by simp⟩, ?_⟩
          intro x hx hxp
          rcases List.mem_cons.mp hx with rfl | hx'
          · exact le_rfl
          · exact le_trans (hbound x hx' hxp) (Nat.le_of_not_lt hgt)

theorem longestPrefixCandidate_mem (ids : List String) (w c : String)
    (h : longestPrefixCandidate ids w = some c) : c ∈ ids := by
  obtain ⟨_, ⟨pre, post, heq, _⟩, _⟩ := longestPrefixCandidate_first ids w c h
  rw [heq]; simp

/-! ## Claim theorems for the stop-reason mapper and model resolvers -/

/-- C5: `mapOpenAIStopReasonToAnthropic` is total on the backend finish
reasons `stop`, `length`, `tool_calls`, `content_filter` and `null`, with the
fixed mapping `stop ↦ end_turn`, `length ↦ max_tokens`,
`tool_calls ↦ tool_use`, `content_filter ↦ end_turn` and `null ↦ null`. -/
theorem mapOpenAIStopReason_fixed_mapping :
    mapOpenAIStopReasonToAnthropic (some "stop") = .mapped .end_turn ∧
    mapOpenAIStopReasonToAnthropic (some "length") = .mapped .max_tokens ∧
    mapOpenAIStopReasonToAnthropic (some "tool_calls") = .mapped .tool_use ∧
    mapOpenAIStopReasonToAnthropic (some "content_filter") = .mapped .end_turn ∧
    mapOpenAIStopReasonToAnthropic none = .nullReason := by
  exact ⟨by decide, by decide, by decide, by decide, rfl⟩

/-- C6 counterexample: an input outside the five known finish reasons does
not map to `end_turn`; the lookup in the object literal yields `undefined`. -/
theorem mapOpenAIStopReason_unknown_counterexample :
    mapOpenAIStopReasonToAnthropic (some "unknown_reason") ≠ .mapped .end_turn ∧
    mapOpenAIStopReasonToAnthropic (some "unknown_reason") = .undefinedReason := by
  exact ⟨by decide, by decide⟩

/-- C6 (amended): a non-null input outside the four mapped finish reasons
never maps to `end_turn` and never throws: it yields the inherited
`Object.prototype` member when it names one (e.g. `"toString"`), and
`undefined` (no stop reason) otherwise. -/
theorem mapOpenAIStopReason_unknown_amended (s : String)
    (h1 : s ≠ "stop") (h2 : s ≠ "length") (h3 : s ≠ "tool_calls")
    (h4 : s ≠ "content_filter") :
    mapOpenAIStopReasonToAnthropic (some s) =
      (if s ∈ objectPrototypeKeys then .inherited s else .undefinedReason) ∧
    mapOpenAIStopReasonToAnthropic (some s) ≠ .mapped .end_turn := by
  constructor
  · simp [mapOpenAIStopReasonToAnthropic, h1, h2, h3, h4]
  · by_cases h5 : s ∈ objectPrototypeKeys <;>
      simp [mapOpenAIStopReasonToAnthropic, h1, h2, h3, h4, h5]

/-- Witness for the amended C6 theorem: the ordinary unknown key `"flagged"`
yields `undefined`, while the `Object.prototype` key `"toString"` yields the
inherited member — neither is `end_turn`. -/
theorem mapOpenAIStopReason_unknown_amended_witness :
    mapOpenAIStopReasonToAnthropic (some "flagged") = .undefinedReason ∧
    mapOpenAIStopReasonToAnthropic (some "toString") = .inherited "toString" := by
  constructor
  · have h := (mapOpenAIStopReason_unknown_amended "flagged" (by decide) (by decide)
      (by decide) (by decide)).1
    rw [h]; decide
  · have h := (mapOpenAIStopReason_unknown_amended "toString" (by decide) (by decide)
      (by decide) (by decide)).1
    rw [h]; decide

/-- The element returned by `List.find?` satisfies the predicate and is the
first such element. -/
theorem find?_first_split {α : Type} (p : α → Bool) :
    ∀ (l : List α) (a : α), l.find? p = some a →
      p a = true ∧ ∃ pre post, l = pre ++ a :: post ∧ ∀ x ∈ pre, p x = false := by
  intro l
  induction l with
  | nil => intro a h; simp at h
  | cons x rest ih =>
    intro a h
    cases hp : p x with
    | true =>
      rw [List.find?_cons_of_pos _ hp] at h
      injection h with h; subst h
      exact ⟨hp, [], rest, rfl, by simp⟩
    | false =>
      rw [List.find?_cons_of_neg _ (by simp [hp])] at h
      obtain ⟨hpa, pre, post, heq, hpre⟩ := ih a h
      refine ⟨hpa, x :: pre, post, by simp [heq], ?_⟩
      intro y hy
      rcases List.mem_cons.mp hy with rfl | hy'
      · exact hp
      · exact hpre y hy'

/-- C10: `resolveModel` returns catalog members and non-`opus` inputs
unchanged; it returns a different value only when the input is absent from
the catalog, contains `opus` case-insensitively, and the catalog has an
`opus` model ending in `-1m`, in which case the first such id is returned. -/
theorem resolveModel_props (models : Option (List ModelEntry)) (modelId : String) :
    (∀ l, models = some l → (∃ m ∈ l, m.id = modelId) →
      resolveModel models modelId = modelId) ∧
    (strIncludes (jsToLowerCase modelId) "opus" = false →
      resolveModel models modelId = modelId) ∧
    (resolveModel models modelId ≠ modelId →
      ∃ l m, models = some l ∧ (∀ x ∈ l, x.id ≠ modelId) ∧
        strIncludes (jsToLowerCase modelId) "opus" = true ∧
        resolveModel models modelId = m.id ∧
        strIncludes m.id "opus" = true ∧ strEndsWith m.id "-1m" = true ∧
        ∃ pre post, l = pre ++ m :: post ∧
          ∀ x ∈ pre, ¬(strIncludes x.id "opus" = true ∧ strEndsWith x.id "-1m" = true)) := by
  refine ⟨?_, ?_, ?_⟩
  · rintro l rfl ⟨m, hm, hid⟩
    have hany : l.any (fun m => m.id == modelId) = true := by
      exact List.any_eq_true.mpr ⟨m, hm, by simp [hid]⟩
    simp [resolveModel, hany]
  · intro hop
    cases models with
    | none => rfl
    | some l =>
      by_cases hany : l.any (fun m => m.id == modelId) = true
      · simp [resolveModel, hany]
      · simp [resolveModel, hany, hop]
  · intro hne
    cases models with
    | none => exact absurd rfl hne
    | some l =>
      by_cases hany : l.any (fun m => m.id == modelId) = true
      · exact absurd (by simp [resolveModel, hany]) hne
      · by_cases hop : strIncludes (jsToLowerCase modelId) "opus" = true
        · cases hf : l.find? (fun m => strIncludes m.id "opus" && strEndsWith m.id "-1m") with
          | none => exact absurd (by simp [resolveModel, hany, hop, hf]) hne
          | some m =>
            obtain ⟨hpm, pre, post, heq, hprev⟩ := find?_first_split _ l m hf
            refine ⟨l, m, rfl, ?_, hop, by simp [resolveModel, hany, hop, hf], ?_, ?_, pre, post, heq, ?_⟩
            · intro x hx hxid
              exact hany (List.any_eq_true.mpr ⟨x, hx, by simp [hxid]⟩)
            · exact ((Bool.and_eq_true _ _).mp hpm).1
            · exact ((Bool.and_eq_true _ _).mp hpm).2
            · intro x hx ⟨hx1, hx2⟩
              have := hprev x hx
              simp [hx1, hx2] at this
        · exact absurd (by simp [resolveModel, hany, hop]) hne

/-- Witness for C10 at a concrete catalog and model id. -/
theorem resolveModel_props_witness :
    resolveModel (some [ModelEntry.mk "gpt-4o"]) "gpt-4o" = "gpt-4o" :=
  (resolveModel_props (some [ModelEntry.mk "gpt-4o"]) "gpt-4o").1
    [ModelEntry.mk "gpt-4o"] rfl ⟨ModelEntry.mk "gpt-4o", by simp, rfl⟩

/-- C4: `normalizeCopilotModelName` tries its resolution tiers in order with
the first match winning: exact catalog member, dash-to-dot conversion,
date-suffix stripping, variant-suffix stripping, longest (first-seen)
catalog prefix, the fixed `claude-opus-4.6` fallback for `claude`-prefixed
strings, and pass-through otherwise. -/
theorem normalizeCopilotModelName_tier_order (ids : List String) (model : String) :
    (model ∈ ids → normalizeCopilotModelName ids model = model) ∧
    (model ∉ ids → dotConvert model ≠ model → dotConvert model ∈ ids →
      normalizeCopilotModelName ids model = dotConvert model) ∧
    (model ∉ ids → ¬(dotConvert model ≠ model ∧ dotConvert model ∈ ids) →
      stripDateSuffix (dotConvert model) ≠ dotConvert model →
      stripDateSuffix (dotConvert model) ∈ ids →
      normalizeCopilotModelName ids model = stripDateSuffix (dotConvert model)) ∧
    (model ∉ ids → ¬(dotConvert model ≠ model ∧ dotConvert model ∈ ids) →
      ¬(stripDateSuffix (dotConvert model) ≠ dotConvert model ∧
        stripDateSuffix (dotConvert model) ∈ ids) →
      stripVariantSuffix (stripDateSuffix (dotConvert model)) ≠ stripDateSuffix (dotConvert model) →
      stripVariantSuffix (stripDateSuffix (dotConvert model)) ∈ ids →
      normalizeCopilotModelName ids model =
        stripVariantSuffix (stripDateSuffix (dotConvert model))) ∧
    (∀ c, model ∉ ids → ¬(dotConvert model ≠ model ∧ dotConvert model ∈ ids) →
      ¬(stripDateSuffix (dotConvert model) ≠ dotConvert model ∧
        stripDateSuffix (dotConvert model) ∈ ids) →
      ¬(stripVariantSuffix (stripDateSuffix (dotConvert model)) ≠ stripDateSuffix (dotConvert model) ∧
        stripVariantSuffix (stripDateSuffix (dotConvert model)) ∈ ids) →
      longestPrefixCandidate ids (stripVariantSuffix (stripDateSuffix (dotConvert model))) = some c →
      normalizeCopilotModelName ids model = c ∧
        IsLongestFirstMatch ids (stripVariantSuffix (stripDateSuffix (dotConvert model))) c) ∧
    (model ∉ ids → ¬(dotConvert model ≠ model ∧ dotConvert model ∈ ids) →
      ¬(stripDateSuffix (dotConvert model) ≠ dotConvert model ∧
        stripDateSuffix (dotConvert model) ∈ ids) →
      ¬(stripVariantSuffix (stripDateSuffix (dotConvert model)) ≠ stripDateSuffix (dotConvert model) ∧
        stripVariantSuffix (stripDateSuffix (dotConvert model)) ∈ ids) →
      longestPrefixCandidate ids (stripVariantSuffix (stripDateSuffix (dotConvert model))) = none →
      strIsPrefixOf "claude" model = true →
      normalizeCopilotModelName ids model = "claude-opus-4.6") ∧
    (model ∉ ids → ¬(dotConvert model ≠ model ∧ dotConvert model ∈ ids) →
      ¬(stripDateSuffix (dotConvert model) ≠ dotConvert model ∧
        stripDateSuffix (dotConvert model) ∈ ids) →
      ¬(stripVariantSuffix (stripDateSuffix (dotConvert model)) ≠ stripDateSuffix (dotConvert model) ∧
        stripVariantSuffix (stripDateSuffix (dotConvert model)) ∈ ids) →
      longestPrefixCandidate ids (stripVariantSuffix (stripDateSuffix (dotConvert model))) = none →
      strIsPrefixOf "claude" model = false →
      normalizeCopilotModelName ids model = model) := by
  refine ⟨?_, ?_, ?_, ?_, ?_, ?_, ?_⟩
  · intro h
    simp only [normalizeCopilotModelName]
    rw [if_pos h]
  · intro h1 h2 h3
    simp only [normalizeCopilotModelName]
    rw [if_neg h1, if_pos ⟨h2, h3⟩]
  · intro h1 h2 h3 h4
    simp only [normalizeCopilotModelName]
    rw [if_neg h1, if_neg h2, if_pos ⟨h3, h4⟩]
  · intro h1 h2 h3 h4 h5
    simp only [normalizeCopilotModelName]
    rw [if_neg h1, if_neg h2, if_neg h3, if_pos ⟨h4, h5⟩]
  · intro c h1 h2 h3 h4 h5
    constructor
    · simp only [normalizeCopilotModelName]
      rw [if_neg h1, if_neg h2, if_neg h3, if_neg h4, h5]
    · exact longestPrefixCandidate_first ids _ c h5
  · intro h1 h2 h3 h4 h5 h6
    simp only [normalizeCopilotModelName]
    rw [if_neg h1, if_neg h2, if_neg h3, if_neg h4, h5]
    simp [h6]
  · intro h1 h2 h3 h4 h5 h6
    simp only [normalizeCopilotModelName]
    rw [if_neg h1, if_neg h2, if_neg h3, if_neg h4, h5]
    simp [h6]

/-- Witness for C4: on the tests' mock catalog, the dash-notation name
`claude-opus-4-6` resolves through tier 2 to `claude-opus-4.6`. -/
theorem normalizeCopilotModelName_tier_order_witness :
    normalizeCopilotModelName mockCopilotModels "claude-opus-4-6" = "claude-opus-4.6" := by
  have h := (normalizeCopilotModelName_tier_order mockCopilotModels "claude-opus-4-6").2.1
    (by decide) (by decide) (by decide)
  rw [h]; decide

/-- C9: the normalizer only ever returns a catalog member, the fixed
`claude-opus-4.6` fallback, or the input unchanged. -/
theorem normalizeCopilotModelName_range (ids : List String) (model : String) :
    normalizeCopilotModelName ids model ∈ ids ∨
    normalizeCopilotModelName ids model = "claude-opus-4.6" ∨
    normalizeCopilotModelName ids model = model := by
  simp only [normalizeCopilotModelName]
  by_cases h1 : model ∈ ids
  · rw [if_pos h1]; exact Or.inl h1
  rw [if_neg h1]
  by_cases h2 : dotConvert model ≠ model ∧ dotConvert model ∈ ids
  · rw [if_pos h2]; exact Or.inl h2.2
  rw [if_neg h2]
  by_cases h3 : stripDateSuffix (dotConvert model) ≠ dotConvert model ∧
      stripDateSuffix (dotConvert model) ∈ ids
  · rw [if_pos h3]; exact Or.inl h3.2
  rw [if_neg h3]
  by_cases h4 : stripVariantSuffix (stripDateSuffix (dotConvert model)) ≠
      stripDateSuffix (dotConvert model) ∧
      stripVariantSuffix (stripDateSuffix (dotConvert model)) ∈ ids
  · rw [if_pos h4]; exact Or.inl h4.2
  rw [if_neg h4]
  cases h5 : longestPrefixCandidate ids (stripVariantSuffix (stripDateSuffix (dotConvert model))) with
  | some c => exact Or.inl (longestPrefixCandidate_mem ids _ c h5)
  | none =>
    by_cases h6 : strIsPrefixOf "claude" model = true
    · rw [if_pos h6]; exact Or.inr (Or.inl rfl)
    · rw [if_neg h6]; exact Or.inr (Or.inr rfl)

/-! ## JSON values and a strict JSON parser

The response translator parses backend tool-call argument strings with the
platform's strict JSON parser.  The model below is a strict recursive-descent
parser over character lists; numbers are kept as raw lexemes (no floating
point is needed by any claim). -/

/-- JSON values.  Object fields are kept as an ordered association list. -/
inductive Json where
  | null
  | bool (b : Bool)
  | num (raw : String)
  | str (s : String)
  | arr (xs : List Json)
  | obj (fields : List (String × Json))

/-- JSON whitespace. -/
def isJsonWs (c : Char) : Bool :=
  c = ' ' || c = Char.ofNat 9 || c = Char.ofNat 10 || c = Char.ofNat 13

/-- Skip leading JSON whitespace. -/
def skipWs (cs : List Char) : List Char := cs.dropWhile isJsonWs

/-- Hexadecimal digit test. -/
def isHexDigit (c : Char) : Bool :=
  c.isDigit || ('a' ≤ c && c ≤ 'f') || ('A' ≤ c && c ≤ 'F')

/-- Value of a hexadecimal digit. -/
def hexVal (c : Char) : Nat :=
  if c.isDigit then c.toNat - 48
  else if 'a' ≤ c && c ≤ 'f' then c.toNat - 87
  else c.toNat - 55

/-- The single-character JSON escapes. -/
def simpleEscape (c : Char) : Option Char :=
  if c = quoteChar then some quoteChar
  else if c = bsChar then some bsChar
  else if c = '/' then some '/'
  else if c = 'b' then some (Char.ofNat 8)
  else if c = 'f' then some (Char.ofNat 12)
  else if c = 'n' then some (Char.ofNat 10)
  else if c = 'r' then some (Char.ofNat 13)
  else if c = 't' then some (Char.ofNat 9)
  else none

/-- Parse the body of a JSON string after its opening quote.  A backslash must
begin a recognized escape; raw control characters are rejected, as in strict
JSON.  (Unicode escapes are mapped through `Char.ofNat`; surrogate code units
are outside the model.) -/
def parseStringBody : List Char → Option (List Char × List Char)
  | [] => none
  | c :: rest =>
    if c = quoteChar then some ([], rest)
    else if c = bsChar then
      match rest with
      | [] => none
      | e :: rest2 =>
        if e = 'u' then
          match rest2 with
          | h1 :: h2 :: h3 :: h4 :: rest3 =>
            if isHexDigit h1 && isHexDigit h2 && isHexDigit h3 && isHexDigit h4 then
              let code := ((hexVal h1 * 16 + hexVal h2) * 16 + hexVal h3) * 16 + hexVal h4
              match parseStringBody rest3 with
              | some (acc, r) => some (Char.ofNat code :: acc, r)
              | none => none
            else none
          | _ => none
        else
          match simpleEscape e with
          | some ch =>
            match parseStringBody rest2 with
            | some (acc, r) => some (ch :: acc, r)
            | none => none
          | none => none
    else if c.toNat < 32 then none
    else
      match parseStringBody rest with
      | some (acc, r) => some (c :: acc, r)
      | none => none

/-- Parse an optional fraction part. -/
def parseFracPart (cs : List Char) : Option (List Char × List Char) :=
  match cs with
  | c :: rest =>
    if c = '.' then
      let ds := rest.takeWhile Char.isDigit
      if ds = [] then none
      else some (c :: ds, rest.dropWhile Char.isDigit)
    else some ([], cs)
  | [] => some ([], cs)

/-- Parse an optional exponent part. -/
def parseExpPart (cs : List Char) : Option (List Char × List Char) :=
  match cs with
  | c :: rest =>
    if c = 'e' || c = 'E' then
      let signAndRest :=
        match rest with
        | s :: r2 => if s = '+' || s = '-' then (([s] : List Char), r2) else (([] : List Char), rest)
        | [] => (([] : List Char), rest)
      let ds := signAndRest.2.takeWhile Char.isDigit
      if ds = [] then none
      else some (c :: signAndRest.1 ++ ds, signAndRest.2.dropWhile Char.isDigit)
    else some ([], cs)
  | [] => some ([], cs)

/-- Parse a strict JSON number lexeme (optional minus, no leading zeros,
optional fraction and exponent). -/
def parseNumberLexeme (cs : List Char) : Option (List Char × List Char) :=
  let signAndRest :=
    match cs with
    | c :: rest => if c = '-' then (([c] : List Char), rest) else (([] : List Char), cs)
    | [] => (([] : List Char), cs)
  match signAndRest.2 with
  | [] => none
  | d :: tail =>
    if ¬ d.isDigit = true then none
    else
      let intPart := if d = '0' then [d] else (d :: tail).takeWhile Char.isDigit
      let rest2 := if d = '0' then tail else (d :: tail).dropWhile Char.isDigit
      if d = '0' && (match rest2 with | c2 :: _ => c2.isDigit | [] => false) then none
      else
        match parseFracPart rest2 with
        | none => none
        | some (fracPart, cs3) =>
          match parseExpPart cs3 with
          | none => none
          | some (expPart, cs4) =>
            some (signAndRest.1 ++ intPart ++ fracPart ++ expPart, cs4)

mutual

/-- Parse one JSON value (fuelled recursive descent; the fuel passed by
`parseJson` is always sufficient). -/
def parseValue : Nat → List Char → Option (Json × List Char)
  | 0, _ => none
  | fuel + 1, cs =>
    match skipWs cs with
    | 'n' :: 'u' :: 'l' :: 'l' :: rest => some (.null, rest)
    | 't' :: 'r' :: 'u' :: 'e' :: rest => some (.bool true, rest)
    | 'f' :: 'a' :: 'l' :: 's' :: 'e' :: rest => some (.bool false, rest)
    | c :: rest =>
      if c = quoteChar then
        match parseStringBody rest with
        | some (acc, r) => some (.str (String.mk acc), r)
        | none => none
      else if c = lbrackChar then
        match parseArrayItems fuel rest with
        | some (xs, r) => some (.arr xs, r)
        | none => none
      else if c = lbraceChar then
        match parseObjectItems fuel rest with
        | some (fs, r) => some (.obj fs, r)
        | none => none
      else
        match parseNumberLexeme (c :: rest) with
        | some (lex, r) => some (.num (String.mk lex), r)
        | none => none
    | [] => none

/-- Parse the items of an array after the opening bracket. -/
def parseArrayItems : Nat → List Char → Option (List Json × List Char)
  | 0, _ => none
  | fuel + 1, cs =>
    match skipWs cs with
    | c :: rest =>
      if c = rbrackChar then some ([], rest)
      else
        match parseValue fuel (c :: rest) with
        | some (v, r) =>
          match parseArrayRest fuel r with
          | some (vs, r2) => some (v :: vs, r2)
          | none => none
        | none => none
    | [] => none

/-- Parse `, value` continuations of an array, or its closing bracket. -/
def parseArrayRest : Nat → List Char → Option (List Json × List Char)
  | 0, _ => none
  | fuel + 1, cs =>
    match skipWs cs with
    | c :: rest =>
      if c = rbrackChar then some ([], rest)
      else if c = commaChar then
        match parseValue fuel rest with
        | some (v, r) =>
          match parseArrayRest fuel r with
          | some (vs, r2) => some (v :: vs, r2)
          | none => none
        | none => none
      else none
    | [] => none

/-- Parse one `"key": value` member. -/
def parseMember : Nat → List Char → Option ((String × Json) × List Char)
  | 0, _ => none
  | fuel + 1, cs =>
    match skipWs cs with
    | c :: rest =>
      if c = quoteChar then
        match parseStringBody rest with
        | some (key, r) =>
          match skipWs r with
          | c2 :: rest2 =>
            if c2 = colonChar then
              match parseValue fuel rest2 with
              | some (v, r2) => some ((String.mk key, v), r2)
              | none => none
            else none
          | [] => none
        | none => none
      else none
    | [] => none

/-- Parse the members of an object after the opening brace. -/
def parseObjectItems : Nat → List Char → Option (List (String × Json) × List Char)
  | 0, _ => none
  | fuel + 1, cs =>
    match skipWs cs with
    | c :: rest =>
      if c = rbraceChar then some ([], rest)
      else
        match parseMember fuel (c :: rest) with
        | some (kv, r) =>
          match parseObjectRest fuel r with
          | some (fs, r2) => some (kv :: fs, r2)
          | none => none
        | none => none
    | [] => none

/-- Parse `, member` continuations of an object, or its closing brace. -/
def parseObjectRest : Nat → List Char → Option (List (String × Json) × List Char)
  | 0, _ => none
  | fuel + 1, cs =>
    match skipWs cs with
    | c :: rest =>
      if c = rbraceChar then some ([], rest)
      else if c = commaChar then
        match parseMember fuel rest with
        | some (kv, r) =>
          match parseObjectRest fuel r with
          | some (fs, r2) => some (kv :: fs, r2)
          | none => none
        | none => none
      else none
    | [] => none

end

/-- Model of strict `JSON.parse`: parse one value and require only whitespace
to remain.  The fuel bound `2 * length + 9` exceeds the recursion depth of any
parse of the input. -/
def parseJson (s : String) : Option Json :=
  match parseValue (2 * s.data.length + 9) s.data with
  | some (v, rest) => if skipWs rest = [] then some v else none
  | none => none

example : parseJson "null" = some Json.null := rfl
example : parseJson "" = none := rfl
example : parseJson "\x7b\x7d" = some (Json.obj []) := rfl
example : parseJson "\x7b\"location\": \"Boston, MA\"\x7d"
    = some (Json.obj [("location", Json.str "Boston, MA")]) := rfl
example : parseJson "\x7b\"a\":[1,true,\"x\"]\x7d"
    = some (Json.obj [("a", Json.arr [Json.num "1", Json.bool true, Json.str "x"])]) := rfl
example : parseJson "\x7b\"path\":\"C:\\Temp\"\x7d" = none := rfl
example : parseJson "\x7b\"path\":\"C:\\\\Temp\"\x7d"
    = some (Json.obj [("path", Json.str "C:\\Temp")]) := rfl
example : parseJson "[1,]" = none := rfl
example : parseJson "01" = none := rfl

/-! ## Tool-argument repair and parsing (response translation) -/

/-- Modelled from the spec: the backslash repair step of the response
translator (`translateToAnthropic` in `non-stream-translation.ts`, whose
implementation is absent from the tree).  Every backslash that does not begin
a recognized JSON escape sequence is escaped; a backslash that does begin one
is kept together with its escape character. -/
def repairChars : List Char → List Char
  | [] => []
  | c :: rest =>
    if c = bsChar then
      match rest with
      | [] => [bsChar, bsChar]
      | e :: rest2 =>
        if (simpleEscape e).isSome || e = 'u' then
          bsChar :: e :: repairChars rest2
        else
          -- the unrecognized follower is a plain character (every special
          -- character is in the recognized set), so scanning resumes at it
          bsChar :: bsChar :: e :: repairChars rest2
    else c :: repairChars rest

/-- Modelled from the spec: backslash repair on strings. -/
def repairJsonArguments (s : String) : String := String.mk (repairChars s.data)

/-- Modelled from the spec: translation of one backend tool-call argument
string into the `tool_use` input mapping.  An empty string yields an empty
mapping; otherwise the string is parsed strictly, re-parsed after backslash
repair on failure, and an empty mapping is substituted if both parses fail. -/
def parseToolArgs (args : String) : Json :=
  if args = "" then .obj []
  else
    match parseJson args with
    | some v => v
    | none =>
      match parseJson (repairJsonArguments args) with
      | some v => v
      | none => .obj []

example : repairJsonArguments "\x7b\"path\":\"C:\\Temp\"\x7d" = "\x7b\"path\":\"C:\\\\Temp\"\x7d" := rfl
example : parseToolArgs "\x7b\"path\":\"C:\\Temp\"\x7d"
    = Json.obj [("path", Json.str "C:\\Temp")] := rfl
example : parseToolArgs "" = Json.obj [] := rfl
example : parseToolArgs "not json at all" = Json.obj [] := rfl
example : parseToolArgs "\x7b\"location\": \"Boston, MA\"\x7d"
    = Json.obj [("location", Json.str "Boston, MA")] := rfl

/-! ## JSON serialization (used by the request translator) -/

/-- Hexadecimal digit for serialization. -/
def hexDigitChar (n : Nat) : Char :=
  if n < 10 then Char.ofNat (48 + n) else Char.ofNat (87 + n)

/-- Escape one character of a JSON string, as `JSON.stringify` does. -/
def escapeJsonChar (c : Char) : List Char :=
  if c = quoteChar then [bsChar, quoteChar]
  else if c = bsChar then [bsChar, bsChar]
  else if c = Char.ofNat 8 then [bsChar, 'b']
  else if c = Char.ofNat 9 then [bsChar, 't']
  else if c = Char.ofNat 10 then [bsChar, 'n']
  else if c = Char.ofNat 12 then [bsChar, 'f']
  else if c = Char.ofNat 13 then [bsChar, 'r']
  else if c.toNat < 32 then
    [bsChar, 'u', '0', '0', hexDigitChar (c.toNat / 16), hexDigitChar (c.toNat % 16)]
  else [c]

mutual

/-- Serialize a JSON value, as `JSON.stringify` does. -/
def serializeJson : Json → String
  | .null => "null"
  | .bool true => "true"
  | .bool false => "false"
  | .num raw => raw
  | .str s =>
    String.mk (quoteChar :: (s.data.map escapeJsonChar).flatten ++ [quoteChar])
  | .arr xs => String.mk [lbrackChar] ++ serializeJsonList xs ++ String.mk [rbrackChar]
  | .obj fs => String.mk [lbraceChar] ++ serializeJsonFields fs ++ String.mk [rbraceChar]

/-- Serialize array items, comma separated. -/
def serializeJsonList : List Json → String
  | [] => ""
  | [x] => serializeJson x
  | x :: y :: rest => serializeJson x ++ "," ++ serializeJsonList (y :: rest)

/-- Serialize object members, comma separated. -/
def serializeJsonFields : List (String × Json) → String
  | [] => ""
  | [(k, v)] => serializeJson (.str k) ++ String.mk [colonChar] ++ serializeJson v
  | (k, v) :: kv :: rest =>
    serializeJson (.str k) ++ String.mk [colonChar] ++ serializeJson v ++ ","
      ++ serializeJsonFields (kv :: rest)

end

example : serializeJson (Json.obj []) = "\x7b\x7d" := by
  simp [serializeJson, serializeJsonFields]; rfl
example : serializeJson (Json.obj [("a", Json.num "1"), ("b", Json.str "x")])
    = "\x7b\"a\":1,\"b\":\"x\"\x7d" := by
  simp [serializeJson, serializeJsonFields, escapeJsonChar]; rfl

/-! ## Non-streaming response translation -/

/-- A backend tool call: id, name and the JSON-encoded argument string. -/
structure OpenAIToolCall where
  id : String
  name : String
  arguments : String

/-- The assistant message of a backend chat-completion choice. -/
structure OpenAIResponseMessage where
  role : String
  content : Option String
  tool_calls : Option (List OpenAIToolCall)

/-- One backend chat-completion choice. -/
structure OpenAIChoice where
  message : OpenAIResponseMessage
  finish_reason : Option String

/-- Backend usage counters. -/
structure OpenAIUsage where
  prompt_tokens : Nat
  completion_tokens : Nat

/-- A complete backend chat-completion response (the fields consumed by the
response translator; `model` is the backend's own label, possibly a display
name). -/
structure ChatCompletionResponse where
  id : String
  model : String
  choices : List OpenAIChoice
  usage : Option OpenAIUsage

/-- An Anthropic response content block. -/
inductive AnthropicBlock where
  | text (s : String)
  | tool_use (id name : String) (input : Json)

/-- Anthropic usage counters. -/
structure AnthropicUsage where
  input_tokens : Nat
  output_tokens : Nat
deriving DecidableEq, Repr

/-- The Anthropic message-protocol response produced by the translator. -/
structure AnthropicResponse where
  model : String
  content : List AnthropicBlock
  stop_reason : StopMapResult
  usage : AnthropicUsage

/-- Usage translation: counters are copied field for field. -/
def usageToAnthropic (u : Option OpenAIUsage) : AnthropicUsage :=
  ⟨(u.map (·.prompt_tokens)).getD 0, (u.map (·.completion_tokens)).getD 0⟩

/-- Modelled from the spec: `translateToAnthropic` of
`non-stream-translation.ts` (implementation absent from the tree; interface
fixed by `tests/create-responses.test.ts`).  The emitted model field is the
original client-requested string; non-empty backend text becomes a single
`text` block; each tool call becomes a `tool_use` block with its argument
string parsed by `parseToolArgs`; the stop reason goes through the stop
reason mapper; usage counters are copied across. -/
def translateToAnthropic (r : ChatCompletionResponse) (originalModel : String) :
    AnthropicResponse :=
  match r.choices.head? with
  | none =>
    { model := originalModel, content := [], stop_reason := .nullReason,
      usage := usageToAnthropic r.usage }
  | some choice =>
    let textBlocks : List AnthropicBlock :=
      match choice.message.content with
      | some t => if t = "" then [] else [.text t]
      | none => []
    let toolBlocks : List AnthropicBlock :=
      (choice.message.tool_calls.getD []).map
        (fun tc => .tool_use tc.id tc.name (parseToolArgs tc.arguments))
    { model := originalModel,
      content := textBlocks ++ toolBlocks,
      stop_reason := mapOpenAIStopReasonToAnthropic choice.finish_reason,
      usage := usageToAnthropic r.usage }

/-- C7: tool-call argument handling of the response translator: an empty
argument string yields an empty mapping; a string rejected by the strict
parser is re-parsed after backslash repair and that result is used; if
parsing still fails after repair, the empty mapping is substituted instead of
an error.  The final conjunct ties `parseToolArgs` to the `tool_use` blocks
`translateToAnthropic` emits. -/
theorem toolArgs_error_handling (args : String) :
    (args = "" → parseToolArgs args = .obj []) ∧
    (∀ v, parseJson args = none → parseJson (repairJsonArguments args) = some v →
      parseToolArgs args = v) ∧
    (parseJson args = none → parseJson (repairJsonArguments args) = none →
      parseToolArgs args = .obj []) ∧
    (∀ (r : ChatCompletionResponse) (m : String) (choice : OpenAIChoice)
        (tc : OpenAIToolCall),
      r.choices.head? = some choice → tc ∈ choice.message.tool_calls.getD [] →
      AnthropicBlock.tool_use tc.id tc.name (parseToolArgs tc.arguments)
        ∈ (translateToAnthropic r m).content) := by
  refine ⟨?_, ?_, ?_, ?_⟩
  · intro h; simp [parseToolArgs, h]
  · intro v h1 h2
    by_cases he : args = ""
    · rw [he] at h2
      have : parseJson (repairJsonArguments "") = none := rfl
      rw [this] at h2; cases h2
    · simp [parseToolArgs, he, h1, h2]
  · intro h1 h2
    by_cases he : args = ""
    · simp [parseToolArgs, he]
    · simp [parseToolArgs, he, h1, h2]
  · intro r m choice tc hhead htc
    simp only [translateToAnthropic, hhead]
    refine List.mem_append_right _ ?_
    exact List.mem_map.mpr ⟨tc, htc, rfl⟩

/-- Witness for C7: the Windows-path argument string with an unescaped
backslash fails strict parsing, and the repaired string parses to the
intended mapping. -/
theorem toolArgs_error_handling_witness :
    parseJson "\x7b\"path\":\"C:\\Temp\"\x7d" = none ∧
    parseToolArgs "\x7b\"path\":\"C:\\Temp\"\x7d"
      = Json.obj [("path", Json.str "C:\\Temp")] :=
  ⟨rfl,
    (toolArgs_error_handling "\x7b\"path\":\"C:\\Temp\"\x7d").2.1
      (Json.obj [("path", Json.str "C:\\Temp")]) rfl rfl⟩

/-! ## Streaming event translation

Modelled from the spec: the per-connection state machine of
`stream-translation.ts` (implementation absent from the tree; its state shape
and interface are fixed by `tests/create-responses.test.ts` and the stream
loop in the chat handler). -/

/-- One entry of a backend streaming tool-call delta, keyed by the backend's
own slot index. -/
structure ToolCallDeltaEntry where
  index : Nat
  id : Option String
  name : Option String
  arguments : Option String

/-- The delta carried by one backend chunk choice. -/
structure ChunkDelta where
  role : Option String
  content : Option String
  tool_calls : Option (List ToolCallDeltaEntry)

/-- One choice of a backend streaming chunk. -/
structure ChunkChoice where
  delta : ChunkDelta
  finish_reason : Option String

/-- A backend streaming chunk (`model` is the backend's own display label). -/
structure ChatCompletionChunk where
  model : String
  choices : List ChunkChoice
  usage : Option OpenAIUsage

/-- The kind of the currently open content block. -/
inductive OpenBlockKind where
  | text
  | tool (slot : Nat)
deriving DecidableEq, Repr

/-- Accumulated state for one backend tool-call slot whose block is open:
its id, name, and the Anthropic content-block index assigned to it. -/
structure StreamToolCallState where
  id : String
  name : String
  blockIndex : Nat
deriving DecidableEq, Repr

/-- Per-connection stream state: whether `message_start` was sent, the
content-block index counter, whether a block is open and its kind, the
per-slot tool-call states, and the per-slot pending argument fragments
observed before the slot's id/name. -/
structure AnthropicStreamState where
  messageStartSent : Bool
  contentBlockIndex : Nat
  contentBlockOpen : Bool
  openKind : OpenBlockKind
  toolCalls : List (Nat × StreamToolCallState)
  pendingToolCallArgs : List (Nat × List String)
deriving DecidableEq, Repr

/-- The state a fresh streaming connection starts from. -/
def freshStreamState : AnthropicStreamState :=
  ⟨false, 0, false, .text, [], []⟩

/-- The Anthropic stream events emitted by the translator. -/
inductive AnthropicStreamEvent where
  | message_start (model : String) (inputTokens outputTokens : Nat)
  | content_block_start_text (index : Nat)
  | content_block_start_tool (index : Nat) (id name : String)
  | content_block_delta_text (index : Nat) (textFragment : String)
  | content_block_delta_json (index : Nat) (partialJson : String)
  | content_block_stop (index : Nat)
  | message_delta (stopReason : StopMapResult) (outputTokens : Nat)
  | message_stop
deriving DecidableEq, Repr

/-- Look up the state of a tool-call slot. -/
def lookupSlot (k : Nat) (l : List (Nat × StreamToolCallState)) :
    Option StreamToolCallState :=
  (l.find? (fun p => p.1 == k)).map (·.2)

/-- The pending argument fragments buffered for a slot. -/
def lookupPending (k : Nat) (l : List (Nat × List String)) : List String :=
  ((l.find? (fun p => p.1 == k)).map (·.2)).getD []

/-- Append a fragment to a slot's pending buffer. -/
def appendPending (k : Nat) (frag : String) :
    List (Nat × List String) → List (Nat × List String)
  | [] => [(k, [frag])]
  | (k', fs) :: rest =>
    if k' = k then (k', fs ++ [frag]) :: rest
    else (k', fs) :: appendPending k frag rest

/-- Drop a slot's pending buffer. -/
def removePending (k : Nat) :
    List (Nat × List String) → List (Nat × List String)
  | [] => []
  | (k', fs) :: rest => if k' = k then rest else (k', fs) :: removePending k rest

/-- Input-token count carried by a chunk's usage, zero when absent. -/
def chunkInputTokens (chunk : ChatCompletionChunk) : Nat :=
  (chunk.usage.map (·.prompt_tokens)).getD 0

/-- Output-token count carried by a chunk's usage, zero when absent. -/
def chunkOutputTokens (chunk : ChatCompletionChunk) : Nat :=
  (chunk.usage.map (·.completion_tokens)).getD 0

/-- Stage 1: on the first chunk bearing a role marker, emit `message_start`
carrying the client-requested model and initial usage, and mark it sent. -/
def startStage (originalModel : String) (chunk : ChatCompletionChunk)
    (choice : ChunkChoice) (s : AnthropicStreamState) :
    List AnthropicStreamEvent × AnthropicStreamState :=
  if choice.delta.role.isSome && !s.messageStartSent then
    ([.message_start originalModel (chunkInputTokens chunk) 0],
     { s with messageStartSent := true })
  else ([], s)

/-- Make a text block the open block: reuse an open text block, close an open
block of a different kind first (incrementing the index), or open a new text
block at the current index. -/
def ensureTextBlock (s : AnthropicStreamState) :
    List AnthropicStreamEvent × AnthropicStreamState :=
  if s.contentBlockOpen then
    match s.openKind with
    | .text => ([], s)
    | .tool _ =>
      ([.content_block_stop s.contentBlockIndex,
        .content_block_start_text (s.contentBlockIndex + 1)],
       { s with contentBlockIndex := s.contentBlockIndex + 1, openKind := .text })
  else
    ([.content_block_start_text s.contentBlockIndex],
     { s with contentBlockOpen := true, openKind := .text })

/-- Stage 2: a text delta opens/reuses the text block and emits a
`text_delta` carrying the fragment. -/
def textStage (choice : ChunkChoice) (s : AnthropicStreamState) :
    List AnthropicStreamEvent × AnthropicStreamState :=
  match choice.delta.content with
  | some txt =>
    let r := ensureTextBlock s
    (r.1 ++ [.content_block_delta_text r.2.contentBlockIndex txt], r.2)
  | none => ([], s)

/-- Open a tool-use content block for a slot whose id and name just arrived,
closing any currently open block first (the single-open invariant). -/
def openToolBlock (slot : Nat) (id name : String) (s : AnthropicStreamState) :
    List AnthropicStreamEvent × AnthropicStreamState :=
  if s.contentBlockOpen then
    ([.content_block_stop s.contentBlockIndex,
      .content_block_start_tool (s.contentBlockIndex + 1) id name],
     { s with
       contentBlockIndex := s.contentBlockIndex + 1
       contentBlockOpen := true
       openKind := .tool slot
       toolCalls := (slot, ⟨id, name, s.contentBlockIndex + 1⟩) :: s.toolCalls })
  else
    ([.content_block_start_tool s.contentBlockIndex id name],
     { s with
       contentBlockOpen := true
       openKind := .tool slot
       toolCalls := (slot, ⟨id, name, s.contentBlockIndex⟩) :: s.toolCalls })

/-- Process one tool-call delta entry: a known slot appends an
`input_json_delta`; an unknown slot with id and name opens its block and
flushes that slot's pending fragments in buffered order, then the current
fragment; an unknown slot without id/name only buffers its fragment and
emits nothing. -/
def processToolDelta (tc : ToolCallDeltaEntry) (s : AnthropicStreamState) :
    List AnthropicStreamEvent × AnthropicStreamState :=
  match lookupSlot tc.index s.toolCalls with
  | some info =>
    ((match tc.arguments with
      | some frag => [.content_block_delta_json info.blockIndex frag]
      | none => []),
     s)
  | none =>
    match tc.id, tc.name with
    | some id, some name =>
      let r := openToolBlock tc.index id name s
      let idx := r.2.contentBlockIndex
      let flushEvs := (lookupPending tc.index s.pendingToolCallArgs).map
        (fun f => AnthropicStreamEvent.content_block_delta_json idx f)
      let curEvs :=
        match tc.arguments with
        | some frag => [AnthropicStreamEvent.content_block_delta_json idx frag]
        | none => []
      (r.1 ++ flushEvs ++ curEvs,
       { r.2 with pendingToolCallArgs := removePending tc.index r.2.pendingToolCallArgs })
    | _, _ =>
      match tc.arguments with
      | some frag =>
        ([], { s with pendingToolCallArgs := appendPending tc.index frag s.pendingToolCallArgs })
      | none => ([], s)

/-- Stage 3: process the chunk's tool-call delta entries in arrival order. -/
def toolStage : List ToolCallDeltaEntry → AnthropicStreamState →
    List AnthropicStreamEvent × AnthropicStreamState
  | [], s => ([], s)
  | tc :: rest, s =>
    let r1 := processToolDelta tc s
    let r2 := toolStage rest r1.2
    (r1.1 ++ r2.1, r2.2)

/-- Stage 4: a non-null finish reason closes the open block, emits a
`message_delta` with the mapped reason and latest usage, then `message_stop`. -/
def finishStage (choice : ChunkChoice) (chunk : ChatCompletionChunk)
    (s : AnthropicStreamState) :
    List AnthropicStreamEvent × AnthropicStreamState :=
  match choice.finish_reason with
  | some fr =>
    ((if s.contentBlockOpen then [AnthropicStreamEvent.content_block_stop s.contentBlockIndex] else [])
      ++ [.message_delta (mapOpenAIStopReasonToAnthropic (some fr)) (chunkOutputTokens chunk),
          .message_stop],
     { s with contentBlockOpen := false })
  | none => ([], s)

/-- Modelled from the spec: `translateChunkToAnthropicEvents` — the pure
per-chunk reducer of the streaming translator.  A chunk without choices is
skipped silently. -/
def translateChunkToAnthropicEvents (originalModel : String)
    (chunk : ChatCompletionChunk) (s : AnthropicStreamState) :
    List AnthropicStreamEvent × AnthropicStreamState :=
  match chunk.choices.head? with
  | none => ([], s)
  | some choice =>
    let r1 := startStage originalModel chunk choice s
    let r2 := textStage choice r1.2
    let r3 := toolStage (choice.delta.tool_calls.getD []) r2.2
    let r4 := finishStage choice chunk r3.2
    (r1.1 ++ (r2.1 ++ (r3.1 ++ r4.1)), r4.2)

/-- Feed a whole chunk sequence, in arrival order, through one shared stream
state, concatenating the emitted events in emission order. -/
def translateStream (originalModel : String) :
    List ChatCompletionChunk → AnthropicStreamState →
    List AnthropicStreamEvent × AnthropicStreamState
  | [], s => ([], s)
  | c :: rest, s =>
    let r1 := translateChunkToAnthropicEvents originalModel c s
    let r2 := translateStream originalModel rest r1.2
    (r1.1 ++ r2.1, r2.2)

/-- The model fields of the `message_start` events in an event sequence. -/
def msModels (evs : List AnthropicStreamEvent) : List String :=
  evs.filterMap (fun e =>
    match e with
    | .message_start m _ _ => some m
    | _ => none)

/-- The `input_json_delta` payloads of an event sequence, in emission order. -/
def jsonDeltaStrings (evs : List AnthropicStreamEvent) : List String :=
  evs.filterMap (fun e =>
    match e with
    | .content_block_delta_json _ s => some s
    | _ => none)

/-- Does a chunk carry a role marker in its first choice? -/
def hasRoleMarker (chunk : ChatCompletionChunk) : Bool :=
  (chunk.choices.head?.bind (fun c => c.delta.role)).isSome

example :
    (translateStream "claude-opus-4.6"
      [⟨"Claude Opus 4.6", [⟨⟨some "assistant", none, none⟩, none⟩], some ⟨10, 0⟩⟩,
       ⟨"Claude Opus 4.6", [⟨⟨none, some "Hello", none⟩, none⟩], none⟩,
       ⟨"Claude Opus 4.6", [⟨⟨none, some " there", none⟩, none⟩], none⟩,
       ⟨"Claude Opus 4.6", [⟨⟨none, none, none⟩, some "stop"⟩], some ⟨10, 2⟩⟩]
      freshStreamState).1 =
    [.message_start "claude-opus-4.6" 10 0,
     .content_block_start_text 0,
     .content_block_delta_text 0 "Hello",
     .content_block_delta_text 0 " there",
     .content_block_stop 0,
     .message_delta (.mapped .end_turn) 2,
     .message_stop] := by decide

example :
    jsonDeltaStrings (translateStream "gpt-4o"
      [⟨"gpt-4o-2024-05-13", [⟨⟨none, none, some [⟨0, none, none, some "\x7b\"loc"⟩]⟩, none⟩], none⟩,
       ⟨"gpt-4o-2024-05-13", [⟨⟨none, none,
          some [⟨0, some "call_early", some "get_weather", some "ation\": \"Oslo\"\x7d"⟩]⟩, none⟩], none⟩,
       ⟨"gpt-4o-2024-05-13", [⟨⟨none, none, none⟩, some "tool_calls"⟩], none⟩]
      freshStreamState).1 = ["\x7b\"loc", "ation\": \"Oslo\"\x7d"] := by decide

example :
    String.join (jsonDeltaStrings (translateStream "gpt-4o"
      [⟨"d", [⟨⟨none, none, some [⟨0, none, none, some "\x7b\"loc"⟩]⟩, none⟩], none⟩,
       ⟨"d", [⟨⟨none, none,
          some [⟨0, some "call_early", some "get_weather", some "ation\": \"Oslo\"\x7d"⟩]⟩, none⟩], none⟩]
      freshStreamState).1) = "\x7b\"location\": \"Oslo\"\x7d" := by decide

/-! ## Lemmas: `message_start` emission -/

theorem msModels_append (a b : List AnthropicStreamEvent) :
    msModels (a ++ b) = msModels a ++ msModels b :=
  List.filterMap_append ..

theorem msModels_deltaJson_map (idx : Nat) (l : List String) :
    msModels (l.map (fun f => AnthropicStreamEvent.content_block_delta_json idx f)) = [] := by
  induction l with
  | nil => rfl
  | cons x xs ih => exact ih

theorem startStage_spec (m : String) (chunk : ChatCompletionChunk)
    (choice : ChunkChoice) (s : AnthropicStreamState) :
    msModels (startStage m chunk choice s).1 =
      (if choice.delta.role.isSome && !s.messageStartSent then [m] else []) ∧
    (startStage m chunk choice s).2.messageStartSent =
      (s.messageStartSent || choice.delta.role.isSome) := by
  cases hr : choice.delta.role.isSome <;> cases hs : s.messageStartSent <;>
    simp [startStage, hr, hs, msModels]

theorem ensureTextBlock_sent (s : AnthropicStreamState) :
    msModels (ensureTextBlock s).1 = [] ∧
    (ensureTextBlock s).2.messageStartSent = s.messageStartSent := by
  by_cases ho : s.contentBlockOpen = true
  · cases hk : s.openKind <;> simp [ensureTextBlock, ho, hk, msModels]
  · simp [ensureTextBlock, ho, msModels]

theorem textStage_sent (choice : ChunkChoice) (s : AnthropicStreamState) :
    msModels (textStage choice s).1 = [] ∧
    (textStage choice s).2.messageStartSent = s.messageStartSent := by
  cases hc : choice.delta.content with
  | none => simp [textStage, hc, msModels]
  | some txt =>
    have h := ensureTextBlock_sent s
    constructor
    · simp only [textStage, hc]
      rw [msModels_append, h.1]
      rfl
    · simp only [textStage, hc]
      exact h.2

theorem openToolBlock_sent (slot : Nat) (id name : String) (s : AnthropicStreamState) :
    msModels (openToolBlock slot id name s).1 = [] ∧
    (openToolBlock slot id name s).2.messageStartSent = s.messageStartSent := by
  by_cases ho : s.contentBlockOpen = true <;> simp [openToolBlock, ho, msModels]

theorem processToolDelta_sent (tc : ToolCallDeltaEntry) (s : AnthropicStreamState) :
    msModels (processToolDelta tc s).1 = [] ∧
    (processToolDelta tc s).2.messageStartSent = s.messageStartSent := by
  cases h1 : lookupSlot tc.index s.toolCalls with
  | some info => cases h2 : tc.arguments <;> simp [processToolDelta, h1, h2, msModels]
  | none =>
    cases h2 : tc.id with
    | none =>
      cases h3 : tc.arguments <;> simp [processToolDelta, h1, h2, h3, msModels]
    | some id =>
      cases h3 : tc.name with
      | none =>
        cases h4 : tc.arguments <;> simp [processToolDelta, h1, h2, h3, h4, msModels]
      | some name =>
        have hopen := openToolBlock_sent tc.index id name s
        cases h4 : tc.arguments with
        | none =>
          constructor
          · simp only [processToolDelta, h1, h2, h3, h4]
            rw [List.append_nil, msModels_append, hopen.1, msModels_deltaJson_map]
            rfl
          · simp only [processToolDelta, h1, h2, h3, h4]
            exact hopen.2
        | some frag =>
          constructor
          · simp only [processToolDelta, h1, h2, h3, h4]
            rw [msModels_append, msModels_append, hopen.1, msModels_deltaJson_map]
            rfl
          · simp only [processToolDelta, h1, h2, h3, h4]
            exact hopen.2

theorem toolStage_sent (tcs : List ToolCallDeltaEntry) :
    ∀ s : AnthropicStreamState,
    msModels (toolStage tcs s).1 = [] ∧
    (toolStage tcs s).2.messageStartSent = s.messageStartSent := by
  induction tcs with
  | nil => intro s; simp [toolStage, msModels]
  | cons tc rest ih =>
    intro s
    have h1 := processToolDelta_sent tc s
    have h2 := ih (processToolDelta tc s).2
    simp [toolStage, msModels_append, h1.1, h1.2, h2.1, h2.2]

theorem finishStage_sent (choice : ChunkChoice) (chunk : ChatCompletionChunk)
    (s : AnthropicStreamState) :
    msModels (finishStage choice chunk s).1 = [] ∧
    (finishStage choice chunk s).2.messageStartSent = s.messageStartSent := by
  cases hf : choice.finish_reason with
  | none => simp [finishStage, hf, msModels]
  | some fr =>
    by_cases ho : s.contentBlockOpen = true <;> simp [finishStage, hf, ho, msModels]

theorem translateChunk_msModels (m : String) (chunk : ChatCompletionChunk)
    (s : AnthropicStreamState) :
    msModels (translateChunkToAnthropicEvents m chunk s).1 =
      (if hasRoleMarker chunk && !s.messageStartSent then [m] else []) ∧
    (translateChunkToAnthropicEvents m chunk s).2.messageStartSent =
      (s.messageStartSent || hasRoleMarker chunk) := by
  cases hh : chunk.choices.head? with
  | none => simp [translateChunkToAnthropicEvents, hasRoleMarker, hh, msModels]
  | some choice =>
    have hstart := startStage_spec m chunk choice s
    have htext := textStage_sent choice (startStage m chunk choice s).2
    have htool := toolStage_sent (choice.delta.tool_calls.getD [])
      (textStage choice (startStage m chunk choice s).2).2
    have hfin := finishStage_sent choice chunk
      (toolStage (choice.delta.tool_calls.getD [])
        (textStage choice (startStage m chunk choice s).2).2).2
    constructor
    · simp only [translateChunkToAnthropicEvents, hh, msModels_append,
        hstart.1, htext.1, htool.1, hfin.1, List.append_nil]
      simp [hasRoleMarker, hh]
    · simp only [translateChunkToAnthropicEvents, hh, hfin.2, htool.2, htext.2, hstart.2]
      simp [hasRoleMarker, hh]

theorem translateStream_msModels (m : String) (chunks : List ChatCompletionChunk) :
    ∀ s : AnthropicStreamState,
    msModels (translateStream m chunks s).1 =
      (if s.messageStartSent then []
       else if chunks.any hasRoleMarker then [m] else []) ∧
    (translateStream m chunks s).2.messageStartSent =
      (s.messageStartSent || chunks.any hasRoleMarker) := by
  induction chunks with
  | nil =>
    intro s
    cases hs : s.messageStartSent <;> simp [translateStream, msModels, hs]
  | cons c rest ih =>
    intro s
    have hc := translateChunk_msModels m c s
    have hr := ih (translateChunkToAnthropicEvents m c s).2
    constructor
    · simp only [translateStream, msModels_append, hc.1, hr.1, hc.2]
      cases hs : s.messageStartSent <;> cases hrc : hasRoleMarker c <;> simp [hs, hrc]
    · simp only [translateStream, hr.2, hc.2]
      cases hs : s.messageStartSent <;> cases hrc : hasRoleMarker c <;> simp [hs, hrc]

/-! ## Claim theorems for the streaming translator -/

/-- C3: over any chunk sequence fed in arrival order through one shared
fresh stream state, exactly one `message_start` is emitted when some chunk
bears a role marker (and none otherwise), regardless of how many chunks
arrive afterwards. -/
theorem message_start_exactly_once (m : String) (chunks : List ChatCompletionChunk) :
    (msModels (translateStream m chunks freshStreamState).1).length =
      (if chunks.any hasRoleMarker then 1 else 0) := by
  rw [(translateStream_msModels m chunks freshStreamState).1]
  cases hc : chunks.any hasRoleMarker <;> simp [freshStreamState, hc]

/-- C1: the non-streaming response's `model` field is the original
client-requested string, and every `message_start` event emitted by the chunk
translator embeds exactly that string — in both cases independently of the
display name carried by the backend response or chunk. -/
theorem model_field_preserved (r : ChatCompletionResponse) (m : String)
    (chunk : ChatCompletionChunk) (s : AnthropicStreamState) :
    (translateToAnthropic r m).model = m ∧
    msModels (translateChunkToAnthropicEvents m chunk s).1 =
      (if hasRoleMarker chunk && !s.messageStartSent then [m] else []) := by
  constructor
  · cases hh : r.choices.head? <;> simp [translateToAnthropic, hh]
  · exact (translateChunk_msModels m chunk s).1

/-! ## Lemmas: tool-argument buffering and flushing -/

/-- A backend chunk carrying only an argument fragment for slot `k` (no id or
name), as in the repository's buffering test; `dm` is the backend's display
model name. -/
def argOnlyChunk (dm : String) (k : Nat) (frag : String) : ChatCompletionChunk :=
  ⟨dm, [⟨⟨none, none, some [⟨k, none, none, some frag⟩]⟩, none⟩], none⟩

/-- A backend chunk carrying slot `k`'s id and name together with an argument
fragment. -/
def openToolChunk (dm : String) (k : Nat) (id name frag : String) : ChatCompletionChunk :=
  ⟨dm, [⟨⟨none, none, some [⟨k, some id, some name, some frag⟩]⟩, none⟩], none⟩

theorem jsonDeltaStrings_append (a b : List AnthropicStreamEvent) :
    jsonDeltaStrings (a ++ b) = jsonDeltaStrings a ++ jsonDeltaStrings b :=
  List.filterMap_append ..

theorem jsonDeltaStrings_deltaJson_map (idx : Nat) (l : List String) :
    jsonDeltaStrings (l.map (fun f => AnthropicStreamEvent.content_block_delta_json idx f)) = l := by
  induction l with
  | nil => rfl
  | cons x xs ih => exact congrArg (fun t => x :: t) ih

theorem translateStream_append (m : String) (l1 l2 : List ChatCompletionChunk) :
    ∀ s, translateStream m (l1 ++ l2) s =
      ((translateStream m l1 s).1 ++ (translateStream m l2 (translateStream m l1 s).2).1,
       (translateStream m l2 (translateStream m l1 s).2).2) := by
  induction l1 with
  | nil => intro s; rfl
  | cons c cs ih =>
    intro s
    simp only [List.cons_append, translateStream, List.append_eq]
    rw [ih]
    simp [List.append_assoc]

theorem argOnlyChunk_buffers (m dm : String) (k : Nat) (f : String)
    (p : List (Nat × List String)) :
    translateChunkToAnthropicEvents m (argOnlyChunk dm k f) ⟨false, 0, false, .text, [], p⟩ =
      ([], ⟨false, 0, false, .text, [], appendPending k f p⟩) := rfl

theorem bufferPhase (m dm : String) (k : Nat) (frags : List String) :
    ∀ p : List (Nat × List String),
    translateStream m (frags.map (argOnlyChunk dm k)) ⟨false, 0, false, .text, [], p⟩ =
      ([], ⟨false, 0, false, .text, [],
        frags.foldl (fun acc f => appendPending k f acc) p⟩) := by
  induction frags with
  | nil => intro p; rfl
  | cons f rest ih =>
    intro p
    simp only [List.map_cons, translateStream, argOnlyChunk_buffers, ih, List.foldl_cons]
    rfl

theorem appendPending_foldl (k : Nat) (frags : List String) :
    ∀ fs, frags.foldl (fun acc f => appendPending k f acc) [(k, fs)] = [(k, fs ++ frags)] := by
  induction frags with
  | nil => intro fs; simp
  | cons f rest ih =>
    intro fs
    simp only [List.foldl_cons]
    have h : appendPending k f [(k, fs)] = [(k, fs ++ [f])] := by simp [appendPending]
    rw [h, ih]
    simp

theorem foldl_appendPending_nil (k : Nat) (frags : List String) :
    frags.foldl (fun acc f => appendPending k f acc) [] =
      (match frags with | [] => [] | _ :: _ => [(k, frags)]) := by
  cases frags with
  | nil => rfl
  | cons p ps =>
    simp only [List.foldl_cons]
    have h : appendPending k p [] = [(k, [p])] := rfl
    rw [h, appendPending_foldl]
    simp

theorem lookupPending_self (k : Nat) (fs : List String) :
    lookupPending k [(k, fs)] = fs := by
  simp [lookupPending, List.find?]

theorem removePending_self (k : Nat) (fs : List String) :
    removePending k [(k, fs)] = [] := by
  simp [removePending]

theorem openToolChunk_flushes (m dm id name a : String) (k : Nat)
    (P : List (Nat × List String)) :
    translateChunkToAnthropicEvents m (openToolChunk dm k id name a)
        ⟨false, 0, false, .text, [], P⟩ =
      (AnthropicStreamEvent.content_block_start_tool 0 id name ::
        ((lookupPending k P).map (fun f => AnthropicStreamEvent.content_block_delta_json 0 f) ++
          [AnthropicStreamEvent.content_block_delta_json 0 a]),
       ⟨false, 0, true, .tool k, [(k, ⟨id, name, 0⟩)], removePending k P⟩) := by
  simp [translateChunkToAnthropicEvents, openToolChunk, startStage, textStage, toolStage,
    processToolDelta, lookupSlot, openToolBlock, finishStage]

theorem argOnlyChunk_after_open (m dm id name : String) (k : Nat) (r : String)
    (Q : List (Nat × List String)) :
    translateChunkToAnthropicEvents m (argOnlyChunk dm k r)
        ⟨false, 0, true, .tool k, [(k, ⟨id, name, 0⟩)], Q⟩ =
      ([AnthropicStreamEvent.content_block_delta_json 0 r],
       ⟨false, 0, true, .tool k, [(k, ⟨id, name, 0⟩)], Q⟩) := by
  simp [translateChunkToAnthropicEvents, argOnlyChunk, startStage, textStage, toolStage,
    processToolDelta, lookupSlot, List.find?, finishStage]

theorem restPhase (m dm id name : String) (k : Nat) (Q : List (Nat × List String))
    (rest : List String) :
    translateStream m (rest.map (argOnlyChunk dm k))
        ⟨false, 0, true, .tool k, [(k, ⟨id, name, 0⟩)], Q⟩ =
      (rest.map (fun r => AnthropicStreamEvent.content_block_delta_json 0 r),
       ⟨false, 0, true, .tool k, [(k, ⟨id, name, 0⟩)], Q⟩) := by
  induction rest with
  | nil => rfl
  | cons r rs ih =>
    simp only [List.map_cons, translateStream, argOnlyChunk_after_open, ih]
    rfl

/-- C2: argument fragments arriving for a tool-call slot before its id/name
produce no events on arrival; when the id and name arrive, the buffered
fragments are flushed as `input_json_delta` events in original arrival order,
so the `input_json_delta` payloads of the whole connection, in emission
order, are exactly the slot's fragments in arrival order, and their
concatenation equals the concatenation of the tool call's argument
fragments. -/
theorem tool_args_buffered_and_flushed_in_order (m dm id name a : String) (k : Nat)
    (pres rest : List String) :
    (translateStream m (pres.map (argOnlyChunk dm k)) freshStreamState).1 = [] ∧
    jsonDeltaStrings (translateStream m
        (pres.map (argOnlyChunk dm k) ++
          openToolChunk dm k id name a :: rest.map (argOnlyChunk dm k))
        freshStreamState).1 = pres ++ a :: rest ∧
    String.join (jsonDeltaStrings (translateStream m
        (pres.map (argOnlyChunk dm k) ++
          openToolChunk dm k id name a :: rest.map (argOnlyChunk dm k))
        freshStreamState).1) = String.join (pres ++ a :: rest) := by
  have hfresh : freshStreamState = (⟨false, 0, false, .text, [], []⟩ : AnthropicStreamState) := rfl
  have hbuf := bufferPhase m dm k pres []
  have h1 : (translateStream m (pres.map (argOnlyChunk dm k)) freshStreamState).1 = [] := by
    rw [hfresh, hbuf]
  have h2 : jsonDeltaStrings (translateStream m
      (pres.map (argOnlyChunk dm k) ++
        openToolChunk dm k id name a :: rest.map (argOnlyChunk dm k))
      freshStreamState).1 = pres ++ a :: rest := by
    rw [translateStream_append, hfresh, hbuf]
    simp only [translateStream, openToolChunk_flushes, restPhase]
    rw [foldl_appendPending_nil]
    cases pres with
    | nil =>
      dsimp only
      simp only [jsonDeltaStrings_append]
      have hopen : jsonDeltaStrings
          (AnthropicStreamEvent.content_block_start_tool 0 id name ::
            ((lookupPending k ([] : List (Nat × List String))).map
              (fun f => AnthropicStreamEvent.content_block_delta_json 0 f) ++
              [AnthropicStreamEvent.content_block_delta_json 0 a])) = [a] := rfl
      rw [hopen, jsonDeltaStrings_deltaJson_map]
      rfl
    | cons p ps =>
      rw [lookupPending_self]
      simp only [jsonDeltaStrings_append]
      have hs : jsonDeltaStrings [] = [] := rfl
      rw [hs]
      have hcons : jsonDeltaStrings
          (AnthropicStreamEvent.content_block_start_tool 0 id name ::
            ((p :: ps).map (fun f => AnthropicStreamEvent.content_block_delta_json 0 f) ++
              [AnthropicStreamEvent.content_block_delta_json 0 a])) =
          (p :: ps) ++ [a] := by
        show jsonDeltaStrings
          ((p :: ps).map (fun f => AnthropicStreamEvent.content_block_delta_json 0 f) ++
            [AnthropicStreamEvent.content_block_delta_json 0 a]) = (p :: ps) ++ [a]
        rw [jsonDeltaStrings_append, jsonDeltaStrings_deltaJson_map]
        rfl
      rw [hcons, jsonDeltaStrings_deltaJson_map]
      simp
  exact ⟨h1, h2, by rw [h2]⟩

/-! ## Request translation (Anthropic → backend chat completion) -/

/-- Anthropic request content blocks. -/
inductive ContentBlock where
  | text (t : String)
  | thinking (t : String)
  | image
  | tool_use (id name : String) (input : Option Json)
  | tool_result (tool_use_id : String) (content : String)

/-- Message content: plain text or an ordered sequence of blocks. -/
inductive MsgContent where
  | str (s : String)
  | blocks (bs : List ContentBlock)

/-- An Anthropic request message. -/
structure AnthMessage where
  role : String
  content : MsgContent

/-- The Anthropic messages payload (the fields the tool-use claim needs). -/
structure AnthropicMessagesPayload where
  model : String
  system : Option String
  messages : List AnthMessage
  max_tokens : Nat

/-- A backend chat-completion request message. -/
structure OpenAIRequestMessage where
  role : String
  content : Option String
  tool_calls : Option (List OpenAIToolCall)
  tool_call_id : Option String

/-- The backend chat-completion request payload. -/
structure OpenAIChatPayload where
  model : String
  messages : List OpenAIRequestMessage
  max_tokens : Nat

/-- Modelled from the spec: a missing/undefined tool-use input mapping is
serialized as the empty object, a present one with `JSON.stringify`. -/
def serializeArgs (input : Option Json) : String :=
  match input with
  | none => serializeJson (Json.obj [])
  | some v => serializeJson v

/-- Modelled from the spec: the backend tool-call entries produced from an
assistant message's content blocks.  A `tool_use` block with non-empty id and
name becomes an entry keyed by its id; blocks with an empty id or name are
dropped. -/
def toolCallsOfBlocks (bs : List ContentBlock) : List OpenAIToolCall :=
  bs.filterMap (fun b =>
    match b with
    | .tool_use id name input =>
      if id ≠ "" ∧ name ≠ "" then some ⟨id, name, serializeArgs input⟩ else none
    | _ => none)

/-- Modelled from the spec: `thinking` and `text` blocks concatenated in
original order into the message's single text content. -/
def textOfBlocks (bs : List ContentBlock) : String :=
  String.join (bs.filterMap (fun b =>
    match b with
    | .text t => some t
    | .thinking t => some t
    | _ => none))

/-- An empty tool-call list is omitted rather than sent as an empty array. -/
def optionalToolCalls (tcs : List OpenAIToolCall) : Option (List OpenAIToolCall) :=
  match tcs with
  | [] => none
  | _ :: _ => some tcs

/-- Modelled from the spec: translation of one Anthropic message into backend
messages.  Assistant block content becomes one assistant message carrying the
concatenated text and the tool-call entries; `tool_result` blocks of user
messages become tool-role messages referencing the originating id. -/
def translateMessage (msg : AnthMessage) : List OpenAIRequestMessage :=
  if msg.role = "assistant" then
    match msg.content with
    | .str s => [⟨"assistant", some s, none, none⟩]
    | .blocks bs =>
      [⟨"assistant", some (textOfBlocks bs),
        optionalToolCalls (toolCallsOfBlocks bs), none⟩]
  else
    match msg.content with
    | .str s => [⟨msg.role, some s, none, none⟩]
    | .blocks bs =>
      bs.filterMap (fun b =>
        match b with
        | .tool_result tid c => some (⟨"tool", some c, none, some tid⟩ : OpenAIRequestMessage)
        | _ => none)
      ++ (if textOfBlocks bs = "" then []
          else [⟨msg.role, some (textOfBlocks bs), none, none⟩])

/-- Modelled from the spec: `translateToOpenAI` of `non-stream-translation.ts`
(implementation absent from the tree; interface fixed by
`tests/anthropic-request.test.ts`).  The system prompt becomes a prepended
system-role message; each Anthropic message is translated in order. -/
def translateToOpenAI (p : AnthropicMessagesPayload) : OpenAIChatPayload :=
  { model := p.model
    max_tokens := p.max_tokens
    messages :=
      (match p.system with
       | some sys => [⟨"system", some sys, none, none⟩]
       | none => []) ++ p.messages.flatMap translateMessage }

/-- C8: every `tool_use` block with non-empty id and name becomes a backend
tool-call entry keyed by its id, whose arguments string is the empty object
when the input mapping is missing; blocks with an empty id or name produce
no entry, and every entry traces back to a `tool_use` block with non-empty
id and name (no dangling references). -/
theorem tool_use_translation (p : AnthropicMessagesPayload) :
    (∀ msg ∈ p.messages, msg.role = "assistant" → ∀ bs, msg.content = .blocks bs →
      (⟨"assistant", some (textOfBlocks bs),
        optionalToolCalls (toolCallsOfBlocks bs), none⟩ : OpenAIRequestMessage)
        ∈ (translateToOpenAI p).messages) ∧
    (∀ bs id name input, ContentBlock.tool_use id name input ∈ bs →
      id ≠ "" → name ≠ "" →
      (⟨id, name, serializeArgs input⟩ : OpenAIToolCall) ∈ toolCallsOfBlocks bs) ∧
    (serializeArgs none = "\x7b\x7d") ∧
    (∀ bs tc, tc ∈ toolCallsOfBlocks bs →
      ∃ input, ContentBlock.tool_use tc.id tc.name input ∈ bs ∧
        tc.id ≠ "" ∧ tc.name ≠ "" ∧ tc.arguments = serializeArgs input) := by
  refine ⟨?_, ?_, ?_, ?_⟩
  · intro msg hmem hrole bs hcontent
    refine List.mem_append_right _ ?_
    refine List.mem_flatMap.mpr ⟨msg, hmem, ?_⟩
    simp [translateMessage, hrole, hcontent]
  · intro bs id name input hmem hid hname
    refine List.mem_filterMap.mpr ⟨ContentBlock.tool_use id name input, hmem, ?_⟩
    simp [hid, hname]
  · simp [serializeArgs, serializeJson, serializeJsonFields]
    rfl
  · intro bs tc htc
    obtain ⟨b, hb, hfb⟩ := List.mem_filterMap.mp htc
    cases b with
    | text t => exact absurd hfb (by simp)
    | thinking t => exact absurd hfb (by simp)
    | image => exact absurd hfb (by simp)
    | tool_result tid c => exact absurd hfb (by simp)
    | tool_use id name input =>
      dsimp only at hfb
      split at hfb
      · rename_i hcond
        injection hfb with h
        subst h
        exact ⟨input, hb, hcond.1, hcond.2, rfl⟩
      · cases hfb

/-- A concrete payload for evaluating C8, matching the repository's test. -/
def c8Payload : AnthropicMessagesPayload :=
  ⟨"claude-3-5-sonnet-20241022", none,
   [⟨"user", .str "What is the weather?"⟩,
    ⟨"assistant", .blocks [.tool_use "call_456" "get_weather" none]⟩], 100⟩

/-- Witness for C8: the assistant message with one inputless `tool_use` block
yields a tool-call entry whose arguments string is the empty object. -/
theorem tool_use_translation_witness :
    (⟨"assistant", some (textOfBlocks [ContentBlock.tool_use "call_456" "get_weather" none]),
      optionalToolCalls (toolCallsOfBlocks [ContentBlock.tool_use "call_456" "get_weather" none]),
      none⟩ : OpenAIRequestMessage)
      ∈ (translateToOpenAI c8Payload).messages ∧
    (⟨"call_456", "get_weather", serializeArgs none⟩ : OpenAIToolCall)
      ∈ toolCallsOfBlocks [ContentBlock.tool_use "call_456" "get_weather" none] ∧
    serializeArgs none = "\x7b\x7d" := by
  refine ⟨?_, ?_, (tool_use_translation c8Payload).2.2.1⟩
  · exact (tool_use_translation c8Payload).1
      ⟨"assistant", .blocks [.tool_use "call_456" "get_weather" none]⟩
      (List.Mem.tail _ (List.Mem.head _)) rfl
      [.tool_use "call_456" "get_weather" none] rfl
  · exact (tool_use_translation c8Payload).2.1
      [.tool_use "call_456" "get_weather" none] "call_456" "get_weather" none
      (List.Mem.head _) (by decide) (by decide)
